import Mathlib

/-!
Shallow embedding of the deadsy/riscv memory-segment and disassembler code.

The `mem` namespace embeds package `mem` (`src/mem/seg.go`): the `Exception`
and `Attribute` bit masks, the exception-computing helpers, and the two
segment kinds `Chunk` (backed memory) and `Empty`.  Go's `uint` is modelled
as a `Nat` reduced modulo `2^64` wherever wraparound can occur; `Exception`
and `Attribute` values are `Nat` bit masks.  A Go slice access that would
panic (index out of range) is modelled by an `Option` result: `none` means
the operation panics rather than returning.

The `rv` namespace embeds the `rv` package disassembler: the instruction
table entries, the first-match scan of `RV.Disassemble`, and the
`Disassembly` record it produces.
-/

namespace mem

/-- Size of the Go `uint` type (64-bit platform). -/
def U64 : Nat := 2 ^ 64

/-- `ExAlign`: misaligned read/write (bit 0 of the `Exception` mask). -/
def ExAlign : Nat := 1

/-- `ExRead`: can't read this memory (bit 1). -/
def ExRead : Nat := 2

/-- `ExWrite`: can't write this memory (bit 2). -/
def ExWrite : Nat := 4

/-- `ExEmpty`: no memory at this address (bit 3). -/
def ExEmpty : Nat := 8

/-- `ExExec`: can't read instructions from this memory (bit 4). -/
def ExExec : Nat := 16

/-- `AttrR`: read permission (bit 0 of the `Attribute` mask). -/
def AttrR : Nat := 1

/-- `AttrW`: write permission (bit 1). -/
def AttrW : Nat := 2

/-- `AttrX`: execute permission (bit 2). -/
def AttrX : Nat := 4

/-- `AttrRW` = read/write. -/
def AttrRW : Nat := AttrR ||| AttrW

/-- `AttrRX` = read/execute. -/
def AttrRX : Nat := AttrR ||| AttrX

/-- `AttrRWX` = read/write/execute. -/
def AttrRWX : Nat := AttrR ||| AttrW ||| AttrX

/-- Go `uint` subtraction `a - b` with wraparound modulo `2^64`. -/
def goSub (a b : Nat) : Nat := (a + (U64 - b % U64)) % U64

/-- `wrException(adr, attr, align)`: the write-exception mask, built exactly
as in the Go code: `ExWrite` is OR-ed in when the segment lacks the write
attribute, then `ExAlign` when `adr & (align-1) != 0`. -/
def wrException (adr attr align : Nat) : Nat :=
  let ex : Nat := 0
  let ex := if attr &&& AttrW = 0 then ex ||| ExWrite else ex
  let ex := if adr &&& (align - 1) ≠ 0 then ex ||| ExAlign else ex
  ex

/-- `rdException(adr, attr, align)`: the read-exception mask: `ExRead` when
the segment lacks the read attribute, then `ExAlign` when
`adr & (align-1) != 0`. -/
def rdException (adr attr align : Nat) : Nat :=
  let ex : Nat := 0
  let ex := if attr &&& AttrR = 0 then ex ||| ExRead else ex
  let ex := if adr &&& (align - 1) ≠ 0 then ex ||| ExAlign else ex
  ex

/-- `rdInsException(adr, attr)`: instruction-fetch exception: a 2-byte
aligned read check (mixed 16/32-bit instruction streams) plus `ExExec`
when the segment lacks the execute attribute. -/
def rdInsException (adr attr : Nat) : Nat :=
  let ex := rdException adr attr 2
  if attr &&& AttrX = 0 then ex ||| ExExec else ex

/-- Little-endian value of a list of bytes (least significant byte first),
as read by Go's `binary.LittleEndian.UintN`. -/
def leVal : List Nat → Nat
  | [] => 0
  | b :: rest => b + 256 * leVal rest

/-- The `n` little-endian bytes of `val`, as stored by Go's
`binary.LittleEndian.PutUintN`. -/
def leBytes : Nat → Nat → List Nat
  | 0, _ => []
  | n + 1, v => v % 256 :: leBytes n (v / 256)

/-- Read `n` bytes little-endian at offset `off` of a byte array.  `none`
models the Go panic when fewer than `n` bytes are available from `off`
(slice bound or the `UintN` bounds check). -/
def leGet (m : List Nat) (off n : Nat) : Option Nat :=
  if off + n ≤ m.length then some (leVal ((m.drop off).take n)) else none

/-- Write `n` bytes little-endian at offset `off` of a byte array.  `none`
models the Go panic when fewer than `n` bytes are available from `off`. -/
def lePut (m : List Nat) (off n val : Nat) : Option (List Nat) :=
  if off + n ≤ m.length then
    some (m.take off ++ leBytes n val ++ m.drop (off + n))
  else none

/-- `Chunk`: a contiguous chunk of backed memory: attribute mask, address
range `[start, end]`, and the byte array. -/
structure Chunk where
  attr : Nat
  start : Nat
  endAdr : Nat
  memA : List Nat
deriving Repr, DecidableEq

/-- `NewChunk(start, size, attr)`: allocates a chunk with all bytes set to
`0xff`; `end = start + size - 1` in Go `uint` arithmetic. -/
def NewChunk (start size attr : Nat) : Chunk :=
  { attr := attr
    start := start
    endAdr := (start + size + (U64 - 1)) % U64
    memA := List.replicate size 0xff }

/-- `Chunk.In(adr, size)`: `end := adr + size - 1` (Go `uint` wraparound),
true iff `adr >= start && end <= endAdr`. -/
def Chunk.In (m : Chunk) (adr size : Nat) : Bool :=
  let e := (adr + size + (U64 - 1)) % U64
  decide (m.start ≤ adr) && decide (e ≤ m.endAdr)

/-- `Chunk.RdIns`: reads a 32-bit instruction at `mem[adr-start:]`
(little-endian) and pairs it with `rdInsException`.  `none` models the Go
panic on an out-of-range slice access. -/
def Chunk.RdIns (m : Chunk) (adr : Nat) : Option (Nat × Nat) :=
  (leGet m.memA (goSub adr m.start) 4).map
    (fun v => (v, rdInsException adr m.attr))

/-- `Chunk.Rd64`: little-endian 64-bit read plus `rdException` (align 8). -/
def Chunk.Rd64 (m : Chunk) (adr : Nat) : Option (Nat × Nat) :=
  (leGet m.memA (goSub adr m.start) 8).map
    (fun v => (v, rdException adr m.attr 8))

/-- `Chunk.Rd32`: little-endian 32-bit read plus `rdException` (align 4). -/
def Chunk.Rd32 (m : Chunk) (adr : Nat) : Option (Nat × Nat) :=
  (leGet m.memA (goSub adr m.start) 4).map
    (fun v => (v, rdException adr m.attr 4))

/-- `Chunk.Rd16`: little-endian 16-bit read plus `rdException` (align 2). -/
def Chunk.Rd16 (m : Chunk) (adr : Nat) : Option (Nat × Nat) :=
  (leGet m.memA (goSub adr m.start) 2).map
    (fun v => (v, rdException adr m.attr 2))

/-- `Chunk.Rd8`: single byte read plus `rdException` (align 1). -/
def Chunk.Rd8 (m : Chunk) (adr : Nat) : Option (Nat × Nat) :=
  (leGet m.memA (goSub adr m.start) 1).map
    (fun v => (v, rdException adr m.attr 1))

/-- `Chunk.Wr64`: stores the 8 little-endian bytes of `val` at
`mem[adr-start:]`, then returns `wrException` (align 8).  The store happens
unconditionally; `none` models the Go panic on out-of-range access. -/
def Chunk.Wr64 (m : Chunk) (adr val : Nat) : Option (Chunk × Nat) :=
  (lePut m.memA (goSub adr m.start) 8 val).map
    (fun m2 => ({ m with memA := m2 }, wrException adr m.attr 8))

/-- `Chunk.Wr32`: stores 4 little-endian bytes, returns `wrException`. -/
def Chunk.Wr32 (m : Chunk) (adr val : Nat) : Option (Chunk × Nat) :=
  (lePut m.memA (goSub adr m.start) 4 val).map
    (fun m2 => ({ m with memA := m2 }, wrException adr m.attr 4))

/-- `Chunk.Wr16`: stores 2 little-endian bytes, returns `wrException`. -/
def Chunk.Wr16 (m : Chunk) (adr val : Nat) : Option (Chunk × Nat) :=
  (lePut m.memA (goSub adr m.start) 2 val).map
    (fun m2 => ({ m with memA := m2 }, wrException adr m.attr 2))

/-- `Chunk.Wr8`: stores one byte, returns `wrException` (align 1). -/
def Chunk.Wr8 (m : Chunk) (adr val : Nat) : Option (Chunk × Nat) :=
  (lePut m.memA (goSub adr m.start) 1 val).map
    (fun m2 => ({ m with memA := m2 }, wrException adr m.attr 1))

/-- `Empty`: an empty memory region: attribute mask and address range,
no backing storage. -/
structure Empty where
  attr : Nat
  start : Nat
  endAdr : Nat
deriving Repr, DecidableEq

/-- `NewEmpty(start, size, attr)`. -/
def NewEmpty (start size attr : Nat) : Empty :=
  { attr := attr
    start := start
    endAdr := (start + size + (U64 - 1)) % U64 }

/-- `Empty.In(adr, size)`: same containment test as `Chunk.In`. -/
def Empty.In (m : Empty) (adr size : Nat) : Bool :=
  let e := (adr + size + (U64 - 1)) % U64
  decide (m.start ≤ adr) && decide (e ≤ m.endAdr)

/-- `Empty.RdIns`: returns `math.MaxUint32` and
`rdInsException | ExEmpty`. -/
def Empty.RdIns (_m : Empty) (adr : Nat) : Nat × Nat :=
  (2 ^ 32 - 1, rdInsException adr _m.attr ||| ExEmpty)

/-- `Empty.Rd64`: returns `math.MaxUint64` and `rdException | ExEmpty`. -/
def Empty.Rd64 (_m : Empty) (adr : Nat) : Nat × Nat :=
  (2 ^ 64 - 1, rdException adr _m.attr 8 ||| ExEmpty)

/-- `Empty.Rd32`: returns `math.MaxUint32` and `rdException | ExEmpty`. -/
def Empty.Rd32 (_m : Empty) (adr : Nat) : Nat × Nat :=
  (2 ^ 32 - 1, rdException adr _m.attr 4 ||| ExEmpty)

/-- `Empty.Rd16`: returns `math.MaxUint16` and `rdException | ExEmpty`. -/
def Empty.Rd16 (_m : Empty) (adr : Nat) : Nat × Nat :=
  (2 ^ 16 - 1, rdException adr _m.attr 2 ||| ExEmpty)

/-- `Empty.Rd8`: returns `math.MaxUint8` and `rdException | ExEmpty`. -/
def Empty.Rd8 (_m : Empty) (adr : Nat) : Nat × Nat :=
  (2 ^ 8 - 1, rdException adr _m.attr 1 ||| ExEmpty)

/-- `Empty.Wr64`: discards the value, returns `wrException | ExEmpty`. -/
def Empty.Wr64 (_m : Empty) (adr _val : Nat) : Nat :=
  wrException adr _m.attr 8 ||| ExEmpty

/-- `Empty.Wr32`: discards the value, returns `wrException | ExEmpty`. -/
def Empty.Wr32 (_m : Empty) (adr _val : Nat) : Nat :=
  wrException adr _m.attr 4 ||| ExEmpty

/-- `Empty.Wr16`: discards the value, returns `wrException | ExEmpty`. -/
def Empty.Wr16 (_m : Empty) (adr _val : Nat) : Nat :=
  wrException adr _m.attr 2 ||| ExEmpty

/-- `Empty.Wr8`: discards the value, returns `wrException | ExEmpty`. -/
def Empty.Wr8 (_m : Empty) (adr _val : Nat) : Nat :=
  wrException adr _m.attr 1 ||| ExEmpty

/-- Spec-side definition (for comparison with the code): the alignment
fault of an access, `ExAlign` iff `address mod width_in_bytes != 0`. -/
def specAlignFault (adr width : Nat) : Nat :=
  if adr % width ≠ 0 then ExAlign else 0

/-- Spec-side definition: the write-permission fault, `ExWrite` iff the
attribute mask lacks the write bit. -/
def specWrPermFault (attr : Nat) : Nat :=
  if attr &&& AttrW = 0 then ExWrite else 0

/-- Spec-side definition: the read-permission fault, `ExRead` iff the
attribute mask lacks the read bit. -/
def specRdPermFault (attr : Nat) : Nat :=
  if attr &&& AttrR = 0 then ExRead else 0

/-- Spec-side definition: the execute-permission fault, `ExExec` iff the
attribute mask lacks the execute bit. -/
def specExecFault (attr : Nat) : Nat :=
  if attr &&& AttrX = 0 then ExExec else 0

/-- Spec-side definition: the composed fault mask of a read: the OR of
exactly the violated conditions among alignment and read permission. -/
def specRdMask (adr attr width : Nat) : Nat :=
  specAlignFault adr width ||| specRdPermFault attr

/-- Spec-side definition: the composed fault mask of a write. -/
def specWrMask (adr attr width : Nat) : Nat :=
  specAlignFault adr width ||| specWrPermFault attr

/-- Modelled from the spec: a segment of the address space is one of the
two variants (the address-space code itself is not under `src/`). -/
inductive Seg where
  | chunk (c : Chunk)
  | empty (e : Empty)
deriving DecidableEq

/-- Containment test of a segment. -/
def Seg.In : Seg → Nat → Nat → Bool
  | .chunk c, adr, size => c.In adr size
  | .empty e, adr, size => e.In adr size

/-- Width-indexed data read from a segment (`w` bytes, `w` one of
1, 2, 4, 8). -/
def Seg.RdW : Seg → Nat → Nat → Option (Nat × Nat)
  | .chunk c, 1, adr => c.Rd8 adr
  | .chunk c, 2, adr => c.Rd16 adr
  | .chunk c, 4, adr => c.Rd32 adr
  | .chunk c, 8, adr => c.Rd64 adr
  | .empty e, 1, adr => some (e.Rd8 adr)
  | .empty e, 2, adr => some (e.Rd16 adr)
  | .empty e, 4, adr => some (e.Rd32 adr)
  | .empty e, 8, adr => some (e.Rd64 adr)
  | _, _, _ => none

/-- Width-indexed data write to a segment. -/
def Seg.WrW : Seg → Nat → Nat → Nat → Option (Seg × Nat)
  | .chunk c, 1, adr, val => (c.Wr8 adr val).map (fun p => (.chunk p.1, p.2))
  | .chunk c, 2, adr, val => (c.Wr16 adr val).map (fun p => (.chunk p.1, p.2))
  | .chunk c, 4, adr, val => (c.Wr32 adr val).map (fun p => (.chunk p.1, p.2))
  | .chunk c, 8, adr, val => (c.Wr64 adr val).map (fun p => (.chunk p.1, p.2))
  | .empty e, 1, adr, val => some (.empty e, e.Wr8 adr val)
  | .empty e, 2, adr, val => some (.empty e, e.Wr16 adr val)
  | .empty e, 4, adr, val => some (.empty e, e.Wr32 adr val)
  | .empty e, 8, adr, val => some (.empty e, e.Wr64 adr val)
  | _, _, _, _ => none

/-- Modelled from the spec: the address space, an ordered collection of
segments; accesses are routed by linear scan to the first segment whose
containment test succeeds. -/
structure Memory where
  segs : List Seg

/-- The first segment (in order) containing `[adr, adr+size)`. -/
def Memory.findSeg (m : Memory) (adr size : Nat) : Option Seg :=
  m.segs.find? (fun s => s.In adr size)

/-- Modelled from the spec: a routed read of `w` bytes; with no containing
segment it synthesizes the response of a theoretical always-empty segment:
the all-ones sentinel and `ExEmpty` combined with the alignment fault the
access would have triggered. -/
def Memory.RdW (m : Memory) (w adr : Nat) : Option (Nat × Nat) :=
  match m.findSeg adr w with
  | some s => s.RdW w adr
  | none => some (2 ^ (8 * w) - 1, rdException adr AttrRWX w ||| ExEmpty)

/-- Route a write through a segment list: the first containing segment is
replaced by its updated version; with no containing segment the value is
discarded and the empty-fault response synthesized. -/
def wrSegs : List Seg → Nat → Nat → Nat → Option (List Seg × Nat)
  | [], w, adr, _val => some ([], wrException adr AttrRWX w ||| ExEmpty)
  | s :: rest, w, adr, val =>
    if s.In adr w then (s.WrW w adr val).map (fun p => (p.1 :: rest, p.2))
    else (wrSegs rest w adr val).map (fun p => (s :: p.1, p.2))

/-- Modelled from the spec: a routed write of the `w` low bytes of `val`. -/
def Memory.WrW (m : Memory) (w adr val : Nat) : Option (Memory × Nat) :=
  (wrSegs m.segs w adr val).map (fun p => (Memory.mk p.1, p.2))

/-- The four data-access widths in bytes. -/
def isWidth (w : Nat) : Prop := w = 1 ∨ w = 2 ∨ w = 4 ∨ w = 8

instance (w : Nat) : Decidable (isWidth w) := by unfold isWidth; infer_instance

end mem

namespace rv

/-- An instruction table entry: significant-bit mask, match value, the
mnemonic, and the decode function `decode.da(mneumonic, adr, ins)`
returning (instruction text, comment). -/
structure insInfo where
  mask : Nat
  val : Nat
  mneumonic : String
  da : String → Nat → Nat → String × String

/-- Default table entry (used only to give `List.getD` a default). -/
def dIns : insInfo := { mask := 0, val := 0, mneumonic := "", da := fun _ _ _ => ("", "") }

instance : Inhabited insInfo := ⟨dIns⟩

/-- The first-match scan of `RV.Disassemble`'s loop over
`m.isa.instruction`: returns the first entry with `ins & mask == val`. -/
def scan : List insInfo → Nat → Option insInfo
  | [], _ => none
  | ii :: rest, ins => if ins &&& ii.mask = ii.val then some ii else scan rest ins

/-- `Disassembly`: the result record of a disassembler call. -/
structure Disassembly where
  Dump : String
  Symbol : String
  Instruction : String
  Comment : String
  N : Int
deriving DecidableEq

/-- A symbol table: address to symbol, Go's `map[uint32]string` as an
association list (a missing key yields the zero value `""`, like a nil or
empty map). -/
def SymbolTable := List (Nat × String)

/-- Lowercase hex digit of a value below 16. -/
def hexDigit (n : Nat) : Char :=
  if n < 10 then Char.ofNat (48 + n) else Char.ofNat (87 + n)

/-- Fixed-width 8-digit lowercase hex, Go's `%08x` for a `uint32`. -/
def hex8 (n : Nat) : String :=
  String.mk ((List.range 8).map (fun i => hexDigit (n / 16 ^ (7 - i) % 16)))

/-- `daDump(adr, ins)`: `fmt.Sprintf("%08x: %08x", adr, ins)`. -/
def daDump (adr ins : Nat) : String := hex8 adr ++ ": " ++ hex8 ins

/-- `daSymbol(adr, st)`: map lookup with zero-value default. -/
def daSymbol (adr : Nat) (st : SymbolTable) : String :=
  (List.lookup adr st).getD ""

/-- The active ISA: its table of instruction entries. -/
structure ISA where
  instruction : List insInfo

/-- The CPU/disassembler context `RV`: the active ISA and the memory it
fetches from.  `Mem.Read32` is not under `src/`; it is modelled as an
arbitrary address-to-word function (its result is truncated to 32 bits at
the use site, as the Go `uint32` return type does). -/
structure RV where
  Mem : Nat → Nat
  isa : ISA

/-- `RV.Disassemble(adr, st)`: fetches the 32-bit word at `adr`, scans the
ISA table in order for the first entry with `ins & mask == val`, and on a
hit calls its decode function; with no hit the instruction and comment
strings keep their zero value `""`.  `N` is `int(unsafe.Sizeof(ins))`,
always 4. -/
def RV.Disassemble (m : RV) (adr : Nat) (st : SymbolTable) : Disassembly :=
  let ins := m.Mem adr % 2 ^ 32
  let ic := match scan m.isa.instruction ins with
    | some ii => ii.da ii.mneumonic adr ins
    | none => ("", "")
  { Dump := daDump adr ins
    Symbol := daSymbol adr st
    Instruction := ic.1
    Comment := ic.2
    N := 4 }

/-- Modelled from the spec: the conflict test of the ISA registry's
decode-ambiguity check (`ISA.Add` is not under `src/`, only its caller):
entries A and B conflict iff
`(A.match_value & common_mask) == (B.match_value & common_mask)` with
`common_mask = A.mask & B.mask`. -/
def conflict (a b : insInfo) : Bool :=
  decide (a.val &&& (a.mask &&& b.mask) = b.val &&& (a.mask &&& b.mask))

/-- Modelled from the spec: a new entry conflicts with some entry of the
existing table. -/
def conflictWith (tbl : List insInfo) (e : insInfo) : Bool :=
  tbl.any (fun o => conflict e o)

/-- Modelled from the spec: append new entries one at a time, each checked
pairwise against the full table existing at that point; `none` on the
first conflict. -/
def addSeq (tbl : List insInfo) : List insInfo → Option (List insInfo)
  | [] => some tbl
  | e :: rest => if conflictWith tbl e then none else addSeq (tbl ++ [e]) rest

/-- Modelled from the spec: `ISA.Add(extension...)` appends the extension
entries in order after validating; on conflict the whole add is rejected
(`false`) and the returned ISA is the unchanged input. -/
def ISA.Add (isa : ISA) (ext : List insInfo) : ISA × Bool :=
  match addSeq isa.instruction ext with
  | none => (isa, false)
  | some t => ({ isa with instruction := t }, true)

/-- Spec-side definition: some newly added entry conflicts with an entry
already present at the moment it is added (the original table plus the
earlier new entries of the same call). -/
def specAddConflict (old ext : List insInfo) : Prop :=
  ∃ i, i < ext.length ∧ ∃ e ∈ old ++ ext.take i, conflict (ext.getD i dIns) e = true

end rv

namespace mem

/-- The code's write-exception mask coincides with the spec-side OR of
exactly the violated conditions, for every power-of-two alignment. -/
theorem wrException_pow (adr attr k : Nat) :
    wrException adr attr (2 ^ k) = specWrMask adr attr (2 ^ k) := by
  unfold wrException specWrMask specAlignFault specWrPermFault
  rw [Nat.and_pow_two_sub_one_eq_mod]
  by_cases hw : attr &&& AttrW = 0 <;> by_cases ha : adr % 2 ^ k = 0 <;>
    simp [hw, ha] <;> decide

/-- The code's read-exception mask coincides with the spec-side OR of
exactly the violated conditions, for every power-of-two alignment. -/
theorem rdException_pow (adr attr k : Nat) :
    rdException adr attr (2 ^ k) = specRdMask adr attr (2 ^ k) := by
  unfold rdException specRdMask specAlignFault specRdPermFault
  rw [Nat.and_pow_two_sub_one_eq_mod]
  by_cases hr : attr &&& AttrR = 0 <;> by_cases ha : adr % 2 ^ k = 0 <;>
    simp [hr, ha] <;> decide

/-- The code's fetch-exception mask coincides with the spec-side OR of
the 2-byte alignment, read-permission and execute-permission faults. -/
theorem rdInsException_spec (adr attr : Nat) :
    rdInsException adr attr = specRdMask adr attr 2 ||| specExecFault attr := by
  have h2 : (2 : Nat) = 2 ^ 1 := by norm_num
  unfold rdInsException specExecFault
  rw [h2, rdException_pow]
  unfold specRdMask specAlignFault specRdPermFault
  by_cases hx : attr &&& AttrX = 0 <;> by_cases hr : attr &&& AttrR = 0 <;>
    by_cases ha : adr % 2 ^ 1 = 0 <;> simp [hx, hr, ha]

/-- `rdException` at any data width equals the spec-side read mask. -/
theorem rdException_width (adr attr w : Nat) (hw : isWidth w) :
    rdException adr attr w = specRdMask adr attr w := by
  rcases hw with h | h | h | h <;> subst h
  · have h0 := rdException_pow adr attr 0; norm_num at h0; exact h0
  · have h1 := rdException_pow adr attr 1; norm_num at h1; exact h1
  · have h2 := rdException_pow adr attr 2; norm_num at h2; exact h2
  · have h3 := rdException_pow adr attr 3; norm_num at h3; exact h3

/-- `wrException` at any data width equals the spec-side write mask. -/
theorem wrException_width (adr attr w : Nat) (hw : isWidth w) :
    wrException adr attr w = specWrMask adr attr w := by
  rcases hw with h | h | h | h <;> subst h
  · have h0 := wrException_pow adr attr 0; norm_num at h0; exact h0
  · have h1 := wrException_pow adr attr 1; norm_num at h1; exact h1
  · have h2 := wrException_pow adr attr 2; norm_num at h2; exact h2
  · have h3 := wrException_pow adr attr 3; norm_num at h3; exact h3

/-- The second component of a successful mapped `leGet` read. -/
theorem rd_snd_of_map (m : List Nat) (off n ex : Nat) (r : Nat × Nat)
    (h : (leGet m off n).map (fun v => (v, ex)) = some r) : r.2 = ex := by
  rw [Option.map_eq_some'] at h
  obtain ⟨v, _, hr⟩ := h
  rw [← hr]

/-- The second component of a successful Chunk write wrapped as a
segment. -/
theorem wr_snd_of_map (m : List Nat) (off n val ex : Nat) (f : List Nat → Chunk)
    (r : Seg × Nat)
    (h : (((lePut m off n val).map (fun m2 => (f m2, ex))).map
      (fun p => (Seg.chunk p.1, p.2))) = some r) : r.2 = ex := by
  rw [Option.map_map, Option.map_eq_some'] at h
  obtain ⟨v, _, hr⟩ := h
  rw [← hr]
  rfl

/-- The exception of a successful width-indexed Chunk read. -/
theorem segRdW_chunk_snd (w adr : Nat) (c : Chunk) (r : Nat × Nat)
    (hw : isWidth w) (h : (Seg.chunk c).RdW w adr = some r) :
    r.2 = specRdMask adr c.attr w := by
  rcases hw with h1 | h1 | h1 | h1 <;> subst h1
  · replace h : (leGet c.memA (goSub adr c.start) 1).map
        (fun v => (v, rdException adr c.attr 1)) = some r := h
    rw [rd_snd_of_map _ _ _ _ _ h]
    exact rdException_width adr c.attr 1 (Or.inl rfl)
  · replace h : (leGet c.memA (goSub adr c.start) 2).map
        (fun v => (v, rdException adr c.attr 2)) = some r := h
    rw [rd_snd_of_map _ _ _ _ _ h]
    exact rdException_width adr c.attr 2 (Or.inr (Or.inl rfl))
  · replace h : (leGet c.memA (goSub adr c.start) 4).map
        (fun v => (v, rdException adr c.attr 4)) = some r := h
    rw [rd_snd_of_map _ _ _ _ _ h]
    exact rdException_width adr c.attr 4 (Or.inr (Or.inr (Or.inl rfl)))
  · replace h : (leGet c.memA (goSub adr c.start) 8).map
        (fun v => (v, rdException adr c.attr 8)) = some r := h
    rw [rd_snd_of_map _ _ _ _ _ h]
    exact rdException_width adr c.attr 8 (Or.inr (Or.inr (Or.inr rfl)))

/-- The exception of a successful width-indexed Chunk write. -/
theorem segWrW_chunk_snd (w adr val : Nat) (c : Chunk) (r : Seg × Nat)
    (hw : isWidth w) (h : (Seg.chunk c).WrW w adr val = some r) :
    r.2 = specWrMask adr c.attr w := by
  rcases hw with h1 | h1 | h1 | h1 <;> subst h1
  · replace h : ((lePut c.memA (goSub adr c.start) 1 val).map
        (fun m2 => ({ c with memA := m2 }, wrException adr c.attr 1))).map
        (fun p => (Seg.chunk p.1, p.2)) = some r := h
    rw [wr_snd_of_map _ _ _ _ _ _ _ h]
    exact wrException_width adr c.attr 1 (Or.inl rfl)
  · replace h : ((lePut c.memA (goSub adr c.start) 2 val).map
        (fun m2 => ({ c with memA := m2 }, wrException adr c.attr 2))).map
        (fun p => (Seg.chunk p.1, p.2)) = some r := h
    rw [wr_snd_of_map _ _ _ _ _ _ _ h]
    exact wrException_width adr c.attr 2 (Or.inr (Or.inl rfl))
  · replace h : ((lePut c.memA (goSub adr c.start) 4 val).map
        (fun m2 => ({ c with memA := m2 }, wrException adr c.attr 4))).map
        (fun p => (Seg.chunk p.1, p.2)) = some r := h
    rw [wr_snd_of_map _ _ _ _ _ _ _ h]
    exact wrException_width adr c.attr 4 (Or.inr (Or.inr (Or.inl rfl)))
  · replace h : ((lePut c.memA (goSub adr c.start) 8 val).map
        (fun m2 => ({ c with memA := m2 }, wrException adr c.attr 8))).map
        (fun p => (Seg.chunk p.1, p.2)) = some r := h
    rw [wr_snd_of_map _ _ _ _ _ _ _ h]
    exact wrException_width adr c.attr 8 (Or.inr (Or.inr (Or.inr rfl)))

/-- The exception of a width-indexed Empty read. -/
theorem segRdW_empty_snd (w adr : Nat) (e : Empty) (r : Nat × Nat)
    (hw : isWidth w) (h : (Seg.empty e).RdW w adr = some r) :
    r.2 = specRdMask adr e.attr w ||| ExEmpty := by
  rcases hw with h1 | h1 | h1 | h1 <;> subst h1
  · replace h : some (2 ^ 8 - 1, rdException adr e.attr 1 ||| ExEmpty) = some r := h
    rw [← Option.some_inj.mp h, rdException_width adr e.attr 1 (Or.inl rfl)]
  · replace h : some (2 ^ 16 - 1, rdException adr e.attr 2 ||| ExEmpty) = some r := h
    rw [← Option.some_inj.mp h, rdException_width adr e.attr 2 (Or.inr (Or.inl rfl))]
  · replace h : some (2 ^ 32 - 1, rdException adr e.attr 4 ||| ExEmpty) = some r := h
    rw [← Option.some_inj.mp h,
      rdException_width adr e.attr 4 (Or.inr (Or.inr (Or.inl rfl)))]
  · replace h : some (2 ^ 64 - 1, rdException adr e.attr 8 ||| ExEmpty) = some r := h
    rw [← Option.some_inj.mp h,
      rdException_width adr e.attr 8 (Or.inr (Or.inr (Or.inr rfl)))]

/-- The exception of a width-indexed Empty write. -/
theorem segWrW_empty_snd (w adr val : Nat) (e : Empty) (r : Seg × Nat)
    (hw : isWidth w) (h : (Seg.empty e).WrW w adr val = some r) :
    r.2 = specWrMask adr e.attr w ||| ExEmpty := by
  rcases hw with h1 | h1 | h1 | h1 <;> subst h1
  · replace h : some ((Seg.empty e : Seg), wrException adr e.attr 1 ||| ExEmpty) = some r := h
    rw [← Option.some_inj.mp h, wrException_width adr e.attr 1 (Or.inl rfl)]
  · replace h : some ((Seg.empty e : Seg), wrException adr e.attr 2 ||| ExEmpty) = some r := h
    rw [← Option.some_inj.mp h, wrException_width adr e.attr 2 (Or.inr (Or.inl rfl))]
  · replace h : some ((Seg.empty e : Seg), wrException adr e.attr 4 ||| ExEmpty) = some r := h
    rw [← Option.some_inj.mp h,
      wrException_width adr e.attr 4 (Or.inr (Or.inr (Or.inl rfl)))]
  · replace h : some ((Seg.empty e : Seg), wrException adr e.attr 8 ||| ExEmpty) = some r := h
    rw [← Option.some_inj.mp h,
      wrException_width adr e.attr 8 (Or.inr (Or.inr (Or.inr rfl)))]

/-- With no containing segment, `wrSegs` leaves the segment list unchanged
and reports the theoretical-always-empty response. -/
theorem wrSegs_of_none (w adr val : Nat) :
    ∀ segs : List Seg, (∀ s ∈ segs, s.In adr w = false) →
      wrSegs segs w adr val = some (segs, wrException adr AttrRWX w ||| ExEmpty)
  | [], _ => rfl
  | s :: rest, h => by
    have hs : s.In adr w = false := h s (List.mem_cons_self s rest)
    have hrest := wrSegs_of_none w adr val rest
      (fun x hx => h x (List.mem_cons_of_mem s hx))
    simp [wrSegs, hs, hrest]

/-- With a containing segment found, the exception reported by `wrSegs` is
exactly that segment's write exception. -/
theorem wrSegs_snd_of_find (w adr val : Nat) :
    ∀ (segs : List Seg) (s : Seg),
      segs.find? (fun x => x.In adr w) = some s →
      (wrSegs segs w adr val).map Prod.snd = (s.WrW w adr val).map Prod.snd
  | [], s, h => by simp at h
  | x :: rest, s, h => by
    rw [List.find?_cons] at h
    cases hx : x.In adr w with
    | true =>
      rw [hx] at h
      replace h : some x = some s := h
      cases Option.some_inj.mp h
      cases hw : x.WrW w adr val <;> simp [wrSegs, hx, hw]
    | false =>
      rw [hx] at h
      replace h : rest.find? (fun y => y.In adr w) = some s := h
      have hrec := wrSegs_snd_of_find w adr val rest s h
      cases hw : wrSegs rest w adr val with
      | none => rw [hw] at hrec; simp [wrSegs, hx, hw, ← hrec]
      | some p => rw [hw] at hrec; simp [wrSegs, hx, hw, ← hrec]

/-- Unmapped accesses are judged against full permissions: the read
exception of a theoretical always-mapped RWX segment is the alignment
fault alone. -/
theorem rdException_rwx (adr w : Nat) (hw : isWidth w) :
    rdException adr AttrRWX w = specAlignFault adr w := by
  rw [rdException_width adr AttrRWX w hw]
  unfold specRdMask
  have h0 : specRdPermFault AttrRWX = 0 := by decide
  rw [h0, Nat.or_zero]

/-- As `rdException_rwx`, for writes. -/
theorem wrException_rwx (adr w : Nat) (hw : isWidth w) :
    wrException adr AttrRWX w = specAlignFault adr w := by
  rw [wrException_width adr AttrRWX w hw]
  unfold specWrMask
  have h0 : specWrPermFault AttrRWX = 0 := by decide
  rw [h0, Nat.or_zero]

/-- A data-read exception never contains the Write or Exec bits. -/
theorem specRdMask_no_wx (adr attr w : Nat) :
    specRdMask adr attr w &&& (ExWrite ||| ExExec) = 0 := by
  unfold specRdMask specAlignFault specRdPermFault
  by_cases h1 : adr % w = 0 <;> by_cases h2 : attr &&& AttrR = 0 <;>
    simp [h1, h2] <;> decide

/-- A data-read exception with the Empty bit added still never contains
Write or Exec. -/
theorem specRdMask_empty_no_wx (adr attr w : Nat) :
    (specRdMask adr attr w ||| ExEmpty) &&& (ExWrite ||| ExExec) = 0 := by
  unfold specRdMask specAlignFault specRdPermFault
  by_cases h1 : adr % w = 0 <;> by_cases h2 : attr &&& AttrR = 0 <;>
    simp [h1, h2] <;> decide

/-- A write exception never contains the Read or Exec bits. -/
theorem specWrMask_no_rx (adr attr w : Nat) :
    specWrMask adr attr w &&& (ExRead ||| ExExec) = 0 := by
  unfold specWrMask specAlignFault specWrPermFault
  by_cases h1 : adr % w = 0 <;> by_cases h2 : attr &&& AttrW = 0 <;>
    simp [h1, h2] <;> decide

/-- A write exception with the Empty bit added still never contains Read
or Exec. -/
theorem specWrMask_empty_no_rx (adr attr w : Nat) :
    (specWrMask adr attr w ||| ExEmpty) &&& (ExRead ||| ExExec) = 0 := by
  unfold specWrMask specAlignFault specWrPermFault
  by_cases h1 : adr % w = 0 <;> by_cases h2 : attr &&& AttrW = 0 <;>
    simp [h1, h2] <;> decide

/-- A fetch exception never contains the Write bit. -/
theorem rdInsException_no_w (adr attr : Nat) :
    rdInsException adr attr &&& ExWrite = 0 := by
  rw [rdInsException_spec]
  unfold specRdMask specAlignFault specRdPermFault specExecFault
  by_cases h1 : adr % 2 = 0 <;> by_cases h2 : attr &&& AttrR = 0 <;>
    by_cases h3 : attr &&& AttrX = 0 <;> simp [h1, h2, h3] <;> decide

/-- A fetch exception with the Empty bit added still never contains the
Write bit. -/
theorem rdInsException_empty_no_w (adr attr : Nat) :
    (rdInsException adr attr ||| ExEmpty) &&& ExWrite = 0 := by
  rw [rdInsException_spec]
  unfold specRdMask specAlignFault specRdPermFault specExecFault
  by_cases h1 : adr % 2 = 0 <;> by_cases h2 : attr &&& AttrR = 0 <;>
    by_cases h3 : attr &&& AttrX = 0 <;> simp [h1, h2, h3] <;> decide

/-- A plain data-read exception (any alignment argument) never contains
Write or Exec. -/
theorem rdException_no_wx (adr attr align : Nat) :
    rdException adr attr align &&& (ExWrite ||| ExExec) = 0 := by
  unfold rdException
  by_cases h1 : attr &&& AttrR = 0 <;> by_cases h2 : adr &&& (align - 1) ≠ 0 <;>
    simp [h1, h2] <;> decide

/-- A plain write exception (any alignment argument) never contains Read
or Exec. -/
theorem wrException_no_rx (adr attr align : Nat) :
    wrException adr attr align &&& (ExRead ||| ExExec) = 0 := by
  unfold wrException
  by_cases h1 : attr &&& AttrW = 0 <;> by_cases h2 : adr &&& (align - 1) ≠ 0 <;>
    simp [h1, h2] <;> decide

/-- Any mask with the Empty bit OR-ed in is non-zero. -/
theorem or_empty_ne_zero (x : Nat) : x ||| ExEmpty ≠ 0 := by
  intro h
  have h8 : (x ||| ExEmpty).testBit 3 = true := by
    rw [Nat.testBit_or, Bool.or_eq_true]
    right
    decide
  rw [h] at h8
  simp at h8

/-- `leGet` succeeds exactly when the `n` bytes fit in the array. -/
theorem leGet_isSome (m : List Nat) (off n : Nat) :
    (leGet m off n).isSome = true ↔ off + n ≤ m.length := by
  unfold leGet
  split <;> simp_all

/-- `lePut` succeeds exactly when the `n` bytes fit in the array. -/
theorem lePut_isSome (m : List Nat) (off n val : Nat) :
    (lePut m off n val).isSome = true ↔ off + n ≤ m.length := by
  unfold lePut
  split <;> simp_all

/-- A Chunk read succeeds exactly when its bytes fit in the array. -/
theorem read_isSome (m : List Nat) (off n ex : Nat) :
    ((leGet m off n).map (fun v => (v, ex))).isSome = true ↔
      off + n ≤ m.length := by
  rw [Option.isSome_map']
  exact leGet_isSome m off n

/-- A Chunk write succeeds exactly when its bytes fit in the array. -/
theorem write_isSome (m : List Nat) (off n val : Nat) (f : List Nat → Chunk × Nat) :
    ((lePut m off n val).map f).isSome = true ↔ off + n ≤ m.length := by
  rw [Option.isSome_map']
  exact lePut_isSome m off n val

/-- The value of a Chunk read is the raw little-endian memory read,
whatever the exception is. -/
theorem map_fst_read (m : List Nat) (off n ex : Nat) :
    ((leGet m off n).map (fun v => (v, ex))).map Prod.fst = leGet m off n := by
  cases h : leGet m off n <;> simp [h]

/-- Without `uint` overflow, the wrapped `adr + size - 1` is the exact
integer `adr + size - 1`. -/
theorem wrap_end_eq (adr size : Nat) (h1 : 1 ≤ size) (h2 : adr + size ≤ U64) :
    (adr + size + (U64 - 1)) % U64 = adr + size - 1 := by
  have hU : 1 ≤ U64 := Nat.one_le_two_pow
  have heq : adr + size + (U64 - 1) = (adr + size - 1) + U64 := by omega
  rw [heq, Nat.add_mod_right]
  exact Nat.mod_eq_of_lt (by omega)

/-- `leBytes` produces exactly `n` bytes. -/
theorem leBytes_length : ∀ n v : Nat, (leBytes n v).length = n
  | 0, _ => rfl
  | n + 1, v => by simp [leBytes, leBytes_length n (v / 256)]

/-- Reassembling the little-endian bytes of `val` yields `val` reduced to
the width. -/
theorem leVal_leBytes : ∀ n v : Nat, leVal (leBytes n v) = v % 2 ^ (8 * n)
  | 0, v => by simp [leBytes, leVal, Nat.mod_one]
  | n + 1, v => by
    have h2 : (2 : Nat) ^ (8 * (n + 1)) = 256 * 2 ^ (8 * n) := by
      rw [show 8 * (n + 1) = 8 + 8 * n from by ring, pow_add]
      norm_num
    simp only [leBytes, leVal]
    rw [leVal_leBytes n (v / 256), h2, Nat.mod_mul]

/-- Reading back the bytes just stored by an in-bounds `lePut` yields the
stored value reduced to the width. -/
theorem chunk_roundtrip (m : List Nat) (off n val : Nat) (h : off + n ≤ m.length) :
    leGet (m.take off ++ leBytes n val ++ m.drop (off + n)) off n =
      some (val % 2 ^ (8 * n)) := by
  have hlenb : (leBytes n val).length = n := leBytes_length n val
  have htk : (m.take off).length = off := by rw [List.length_take]; omega
  have hlen : (m.take off ++ leBytes n val ++ m.drop (off + n)).length = m.length := by
    simp only [List.length_append, hlenb, htk, List.length_drop]
    omega
  unfold leGet
  rw [if_pos (by omega : off + n ≤ (m.take off ++ leBytes n val ++ m.drop (off + n)).length)]
  rw [List.append_assoc, List.drop_left' htk, List.take_left' hlenb, leVal_leBytes]

/-- An in-bounds `lePut` succeeds and its result reads back the stored
value. -/
theorem wr_rd_roundtrip (c : Chunk) (adr val n : Nat)
    (h : goSub adr c.start + n ≤ c.memA.length) :
    ∃ m2, lePut c.memA (goSub adr c.start) n val = some m2 ∧
      leGet m2 (goSub adr c.start) n = some (val % 2 ^ (8 * n)) := by
  refine ⟨_, ?_, chunk_roundtrip c.memA (goSub adr c.start) n val h⟩
  unfold lePut
  rw [if_pos h]

end mem


namespace rv

/-- The scan returns the first matching entry: entries before it do not
match and entries after it are irrelevant. -/
theorem scan_first (ins : Nat) (ii : insInfo) (l2 : List insInfo) :
    ∀ l1 : List insInfo, (∀ e ∈ l1, ¬(ins &&& e.mask = e.val)) →
      ins &&& ii.mask = ii.val → scan (l1 ++ ii :: l2) ins = some ii
  | [], _, hm => by simp [scan, hm]
  | e :: rest, hno, hm => by
    have he : ¬(ins &&& e.mask = e.val) := hno e (List.mem_cons_self e rest)
    simp only [List.cons_append, scan]
    rw [if_neg he]
    exact scan_first ins ii l2 rest (fun x hx => hno x (List.mem_cons_of_mem e hx)) hm

/-- A successful sequential add appends the new entries in order. -/
theorem addSeq_some_eq : ∀ (ext tbl t : List insInfo),
    addSeq tbl ext = some t → t = tbl ++ ext
  | [], tbl, t, h => by
    simp only [addSeq, Option.some_inj] at h
    simp [← h]
  | e :: rest, tbl, t, h => by
    simp only [addSeq] at h
    by_cases hc : conflictWith tbl e = true
    · simp [hc] at h
    · simp only [hc, Bool.false_eq_true, if_false] at h
      have ht := addSeq_some_eq rest (tbl ++ [e]) t h
      rw [ht, List.append_assoc]
      rfl

/-- The sequential add rejects exactly when some new entry conflicts with
an entry present at the moment it is added. -/
theorem addSeq_none_iff : ∀ (ext tbl : List insInfo),
    addSeq tbl ext = none ↔
      ∃ i, i < ext.length ∧
        ∃ e ∈ tbl ++ ext.take i, conflict (ext.getD i dIns) e = true
  | [], tbl => by simp [addSeq]
  | e :: rest, tbl => by
    simp only [addSeq]
    by_cases hc : conflictWith tbl e = true
    · simp only [hc, if_true]
      constructor
      · intro _
        rcases List.any_eq_true.mp hc with ⟨o, ho, hco⟩
        exact ⟨0, by simp, o, by simpa using ho, by simpa using hco⟩
      · intro _
        trivial
    · simp only [hc, Bool.false_eq_true, if_false]
      rw [addSeq_none_iff rest (tbl ++ [e])]
      constructor
      · rintro ⟨i, hi, o, ho, hco⟩
        refine ⟨i + 1, by simpa using hi, o, ?_, ?_⟩
        · rw [List.take_succ_cons, ← List.singleton_append, ← List.append_assoc]
          exact ho
        · simpa using hco
      · rintro ⟨i, hi, o, ho, hco⟩
        cases i with
        | zero =>
          exfalso
          apply hc
          apply List.any_eq_true.mpr
          refine ⟨o, ?_, ?_⟩
          · simpa using ho
          · simpa using hco
        | succ j =>
          refine ⟨j, by simpa using hi, o, ?_, ?_⟩
          · rw [List.take_succ_cons, ← List.singleton_append,
              ← List.append_assoc] at ho
            exact ho
          · simpa using hco

end rv

open mem rv

/-- C1: for every memory access — read or write, data widths 1/2/4/8 bytes,
to a Chunk, an Empty segment, or routed through the address space — the
returned Exception mask is the bitwise OR of exactly the violated
conditions among alignment, permission and presence; in particular an
aligned 4-byte write to a read-only Chunk returns exactly `ExWrite`, and an
unaligned write to a read-only Empty region returns exactly
`ExAlign|ExWrite|ExEmpty`. -/
theorem C1_fault_composition :
    (∀ adr attr k, wrException adr attr (2 ^ k) = specWrMask adr attr (2 ^ k) ∧
      rdException adr attr (2 ^ k) = specRdMask adr attr (2 ^ k)) ∧
    (∀ w adr val, isWidth w → ∀ (c : Chunk) (e : mem.Empty),
      (∀ r, (Seg.chunk c).RdW w adr = some r → r.2 = specRdMask adr c.attr w) ∧
      (∀ r, (Seg.chunk c).WrW w adr val = some r → r.2 = specWrMask adr c.attr w) ∧
      (∀ r, (Seg.empty e).RdW w adr = some r →
        r.2 = specRdMask adr e.attr w ||| ExEmpty) ∧
      (∀ r, (Seg.empty e).WrW w adr val = some r →
        r.2 = specWrMask adr e.attr w ||| ExEmpty)) ∧
    (∀ w adr val, isWidth w → ∀ m : Memory,
      (m.findSeg adr w = none →
        m.RdW w adr = some (2 ^ (8 * w) - 1, specAlignFault adr w ||| ExEmpty) ∧
        m.WrW w adr val = some (m, specAlignFault adr w ||| ExEmpty)) ∧
      (∀ s, m.findSeg adr w = some s →
        m.RdW w adr = s.RdW w adr ∧
        (m.WrW w adr val).map Prod.snd = (s.WrW w adr val).map Prod.snd)) ∧
    ((NewChunk 0 16 AttrR).Wr32 4 0).map Prod.snd = some ExWrite ∧
    (NewEmpty 0 16 AttrR).Wr64 1 0 = (ExAlign ||| ExWrite ||| ExEmpty) := by
  refine ⟨fun adr attr k => ⟨wrException_pow adr attr k, rdException_pow adr attr k⟩,
    fun w adr val hw c e => ⟨fun r h => segRdW_chunk_snd w adr c r hw h,
      fun r h => segWrW_chunk_snd w adr val c r hw h,
      fun r h => segRdW_empty_snd w adr e r hw h,
      fun r h => segWrW_empty_snd w adr val e r hw h⟩,
    fun w adr val hw m => ⟨fun hnone => ?_, fun s hs => ?_⟩, by decide, by decide⟩
  · constructor
    · unfold Memory.RdW
      rw [hnone, rdException_rwx adr w hw]
    · have hall : ∀ s ∈ m.segs, s.In adr w = false := by
        rw [Memory.findSeg, List.find?_eq_none] at hnone
        exact fun s hs => by simpa using hnone s hs
      unfold Memory.WrW
      rw [wrSegs_of_none w adr val m.segs hall, wrException_rwx adr w hw]
      rfl
  · constructor
    · unfold Memory.RdW
      rw [hs]
    · unfold Memory.WrW
      rw [Option.map_map]
      have hcomp : Prod.snd ∘ (fun p : List Seg × Nat => (Memory.mk p.1, p.2)) =
        Prod.snd := rfl
      rw [hcomp]
      exact wrSegs_snd_of_find w adr val m.segs s hs

/-- Witness for C1 at a concrete input: an unaligned 8-byte write to a
read-only Empty region reports exactly Align, Write and Empty. -/
theorem C1_fault_composition_witness :
    (13 : Nat) = specWrMask 1 AttrR 8 ||| ExEmpty :=
  (C1_fault_composition.2.1 8 1 0 (by decide) (NewChunk 0 1 AttrR)
    (NewEmpty 0 16 AttrR)).2.2.2 (Seg.empty (NewEmpty 0 16 AttrR), 13) (by decide)

/-- C7: for every instruction fetch, the returned Exception contains
`ExAlign` iff `adr mod 2 ≠ 0` (a fixed 2-byte alignment check), contains
`ExExec` iff the attribute mask lacks the execute bit, and the two
conditions are independent (each iff holds for all values of the other
input). -/
theorem C7_fetch_align_exec (adr attr : Nat) :
    (rdInsException adr attr &&& ExAlign ≠ 0 ↔ adr % 2 ≠ 0) ∧
    (rdInsException adr attr &&& ExExec ≠ 0 ↔ attr &&& AttrX = 0) := by
  rw [rdInsException_spec]
  unfold specRdMask specAlignFault specRdPermFault specExecFault
  by_cases h1 : adr % 2 = 0 <;> by_cases h2 : attr &&& AttrR = 0 <;>
    by_cases h3 : attr &&& AttrX = 0 <;> simp [h1, h2, h3] <;> decide

/-- C10: fault kinds are separated by operation: a data read's Exception
mask never contains Write or Exec, a write's never contains Read or Exec,
and an instruction fetch's never contains Write — for the exception
helpers and for every Chunk and Empty segment operation at every width. -/
theorem C10_fault_separation :
    (∀ adr attr align,
      rdException adr attr align &&& (ExWrite ||| ExExec) = 0 ∧
      wrException adr attr align &&& (ExRead ||| ExExec) = 0 ∧
      rdInsException adr attr &&& ExWrite = 0) ∧
    (∀ w adr val, isWidth w → ∀ (c : Chunk) (e : mem.Empty),
      (∀ r, (Seg.chunk c).RdW w adr = some r → r.2 &&& (ExWrite ||| ExExec) = 0) ∧
      (∀ r, (Seg.chunk c).WrW w adr val = some r → r.2 &&& (ExRead ||| ExExec) = 0) ∧
      (∀ r, (Seg.empty e).RdW w adr = some r → r.2 &&& (ExWrite ||| ExExec) = 0) ∧
      (∀ r, (Seg.empty e).WrW w adr val = some r → r.2 &&& (ExRead ||| ExExec) = 0)) ∧
    (∀ (c : Chunk) (e : mem.Empty) adr,
      (∀ r, c.RdIns adr = some r → r.2 &&& ExWrite = 0) ∧
      (e.RdIns adr).2 &&& ExWrite = 0) := by
  refine ⟨fun adr attr align => ⟨rdException_no_wx adr attr align,
      wrException_no_rx adr attr align, rdInsException_no_w adr attr⟩,
    fun w adr val hw c e => ⟨?_, ?_, ?_, ?_⟩,
    fun c e adr => ⟨fun r h => ?_, rdInsException_empty_no_w adr e.attr⟩⟩
  · intro r h
    rw [segRdW_chunk_snd w adr c r hw h]
    exact specRdMask_no_wx adr c.attr w
  · intro r h
    rw [segWrW_chunk_snd w adr val c r hw h]
    exact specWrMask_no_rx adr c.attr w
  · intro r h
    rw [segRdW_empty_snd w adr e r hw h]
    exact specRdMask_empty_no_wx adr e.attr w
  · intro r h
    rw [segWrW_empty_snd w adr val e r hw h]
    exact specWrMask_empty_no_rx adr e.attr w
  · replace h : (leGet c.memA (goSub adr c.start) 4).map
        (fun v => (v, rdInsException adr c.attr)) = some r := h
    rw [rd_snd_of_map _ _ _ _ _ h]
    exact rdInsException_no_w adr c.attr

/-- Witness for C10 at a concrete input: a faulting write to a read-only
Chunk carries no Read or Exec bit. -/
theorem C10_fault_separation_witness :
    ((4 : Nat) &&& (ExRead ||| ExExec) = 0) :=
  ((C10_fault_separation.2.1 4 0 0 (by decide) (NewChunk 0 8 AttrR)
    (NewEmpty 0 8 AttrR)).2.1
    (Seg.chunk ⟨AttrR, 0, 7, [0, 0, 0, 0, 255, 255, 255, 255]⟩, 4) (by decide))

/-- C2 counterexample: after storing `18` in a write-only Chunk, the 8-bit
read at address 0 faults (mask `ExRead`, non-zero) yet returns the memory
contents `18`, not the all-ones sentinel `255`. -/
theorem C2_sentinel_counterexample :
    ((NewChunk 0 4 AttrW).Wr8 0 18).map (fun p => p.1.Rd8 0) =
      some (some (18, ExRead)) ∧ (18 : Nat) ≠ 2 ^ 8 - 1 ∧ ExRead ≠ 0 := by
  refine ⟨by decide, by decide, by decide⟩

/-- C2 (amended): only Empty-segment reads return the all-ones maximum
value of the requested width (always with a non-zero mask); Chunk reads
return the raw little-endian memory contents regardless of the fault
state. -/
theorem C2_sentinel_amended :
    (∀ (e : mem.Empty) (adr : Nat),
      (e.Rd8 adr).1 = 2 ^ 8 - 1 ∧ (e.Rd16 adr).1 = 2 ^ 16 - 1 ∧
      (e.Rd32 adr).1 = 2 ^ 32 - 1 ∧ (e.Rd64 adr).1 = 2 ^ 64 - 1 ∧
      (e.RdIns adr).1 = 2 ^ 32 - 1 ∧
      (e.Rd8 adr).2 ≠ 0 ∧ (e.Rd16 adr).2 ≠ 0 ∧ (e.Rd32 adr).2 ≠ 0 ∧
      (e.Rd64 adr).2 ≠ 0 ∧ (e.RdIns adr).2 ≠ 0) ∧
    (∀ (c : Chunk) (adr : Nat),
      (c.Rd8 adr).map Prod.fst = leGet c.memA (goSub adr c.start) 1 ∧
      (c.Rd16 adr).map Prod.fst = leGet c.memA (goSub adr c.start) 2 ∧
      (c.Rd32 adr).map Prod.fst = leGet c.memA (goSub adr c.start) 4 ∧
      (c.Rd64 adr).map Prod.fst = leGet c.memA (goSub adr c.start) 8 ∧
      (c.RdIns adr).map Prod.fst = leGet c.memA (goSub adr c.start) 4) := by
  constructor
  · intro e adr
    exact ⟨rfl, rfl, rfl, rfl, rfl,
      or_empty_ne_zero _, or_empty_ne_zero _, or_empty_ne_zero _,
      or_empty_ne_zero _, or_empty_ne_zero _⟩
  · intro c adr
    exact ⟨map_fst_read _ _ _ _, map_fst_read _ _ _ _, map_fst_read _ _ _ _,
      map_fst_read _ _ _ _, map_fst_read _ _ _ _⟩

/-- C4 counterexample: Chunk operations are not total: an 8-bit read one
byte past a 4-byte chunk, and a 64-bit read overlapping its end, both hit
the Go out-of-range panic (modelled as `none`) instead of returning an
Exception. -/
theorem C4_totality_counterexample :
    (NewChunk 0 4 AttrRW).Rd8 4 = none ∧
    (NewChunk 0 4 AttrRW).Rd64 1 = none := by
  refine ⟨by decide, by decide⟩

/-- C4 (amended): a Chunk operation returns normally exactly when the
accessed bytes fit inside the backing array (offset computed with Go
`uint` wraparound); outside that range the Go code panics.  Empty-segment
operations are total by construction. -/
theorem C4_totality_amended (c : Chunk) (adr val : Nat) :
    ((c.Rd8 adr).isSome = true ↔ goSub adr c.start + 1 ≤ c.memA.length) ∧
    ((c.Rd16 adr).isSome = true ↔ goSub adr c.start + 2 ≤ c.memA.length) ∧
    ((c.Rd32 adr).isSome = true ↔ goSub adr c.start + 4 ≤ c.memA.length) ∧
    ((c.Rd64 adr).isSome = true ↔ goSub adr c.start + 8 ≤ c.memA.length) ∧
    ((c.RdIns adr).isSome = true ↔ goSub adr c.start + 4 ≤ c.memA.length) ∧
    ((c.Wr8 adr val).isSome = true ↔ goSub adr c.start + 1 ≤ c.memA.length) ∧
    ((c.Wr16 adr val).isSome = true ↔ goSub adr c.start + 2 ≤ c.memA.length) ∧
    ((c.Wr32 adr val).isSome = true ↔ goSub adr c.start + 4 ≤ c.memA.length) ∧
    ((c.Wr64 adr val).isSome = true ↔ goSub adr c.start + 8 ≤ c.memA.length) :=
  ⟨read_isSome _ _ _ _, read_isSome _ _ _ _, read_isSome _ _ _ _,
    read_isSome _ _ _ _, read_isSome _ _ _ _,
    write_isSome _ _ _ _ _, write_isSome _ _ _ _ _,
    write_isSome _ _ _ _ _, write_isSome _ _ _ _ _⟩

/-- C9 counterexample: the containment test is computed in wrapping Go
`uint` arithmetic, not over unbounded integers: on a 4-byte chunk at 0,
`In(2^64 - 1, 2)` returns true although the integer interval
`[2^64 - 1, 2^64]` does not lie inside `[0, 3]`. -/
theorem C9_in_counterexample :
    (NewChunk 0 4 AttrRW).In (2 ^ 64 - 1) 2 = true ∧
    ¬((2 ^ 64 - 1) + 2 - 1 ≤ 3) := by
  refine ⟨by decide, by decide⟩

/-- C9 (amended): for size ≥ 1, whenever `adr + size` does not overflow
the 64-bit `uint` range, the containment test of a Chunk or Empty segment
returns true iff `start ≤ adr` and `adr + size - 1 ≤ end` over unbounded
integers. -/
theorem C9_in_amended (c : Chunk) (e : mem.Empty) (adr size : Nat)
    (h1 : 1 ≤ size) (h2 : adr + size ≤ U64) :
    (c.In adr size = true ↔ c.start ≤ adr ∧ adr + size - 1 ≤ c.endAdr) ∧
    (e.In adr size = true ↔ e.start ≤ adr ∧ adr + size - 1 ≤ e.endAdr) := by
  unfold Chunk.In Empty.In
  rw [wrap_end_eq adr size h1 h2]
  constructor <;> simp

/-- Witness for C9 (amended) at a concrete input: on a 4-byte chunk at 0,
`In(1, 2)` is true and `[1, 2] ⊆ [0, 3]`. -/
theorem C9_in_amended_witness :
    ((NewChunk 0 4 AttrRW).In 1 2 = true ↔
      (NewChunk 0 4 AttrRW).start ≤ 1 ∧ 1 + 2 - 1 ≤ (NewChunk 0 4 AttrRW).endAdr) ∧
    ((NewEmpty 0 4 AttrRW).In 1 2 = true ↔
      (NewEmpty 0 4 AttrRW).start ≤ 1 ∧ 1 + 2 - 1 ≤ (NewEmpty 0 4 AttrRW).endAdr) :=
  C9_in_amended (NewChunk 0 4 AttrRW) (NewEmpty 0 4 AttrRW) 1 2 (by decide)
    (by unfold U64; omega)

/-- C8: a Chunk write that returns (i.e. the bytes fit in the backing
array) always stores the value through, little-endian, even when the
returned Exception is non-zero: a subsequent same-width read at that
address observes the written value (reduced to the width) regardless of
the attribute mask; an Empty write discards the value (its result does
not depend on the value, and the region carries no state). -/
theorem C8_write_through :
    (∀ (c : Chunk) (adr val : Nat), goSub adr c.start + 1 ≤ c.memA.length →
      ∃ p, c.Wr8 adr val = some p ∧ p.1.attr = c.attr ∧
        p.1.Rd8 adr = some (val % 2 ^ 8, rdException adr c.attr 1)) ∧
    (∀ (c : Chunk) (adr val : Nat), goSub adr c.start + 2 ≤ c.memA.length →
      ∃ p, c.Wr16 adr val = some p ∧ p.1.attr = c.attr ∧
        p.1.Rd16 adr = some (val % 2 ^ 16, rdException adr c.attr 2)) ∧
    (∀ (c : Chunk) (adr val : Nat), goSub adr c.start + 4 ≤ c.memA.length →
      ∃ p, c.Wr32 adr val = some p ∧ p.1.attr = c.attr ∧
        p.1.Rd32 adr = some (val % 2 ^ 32, rdException adr c.attr 4)) ∧
    (∀ (c : Chunk) (adr val : Nat), goSub adr c.start + 8 ≤ c.memA.length →
      ∃ p, c.Wr64 adr val = some p ∧ p.1.attr = c.attr ∧
        p.1.Rd64 adr = some (val % 2 ^ 64, rdException adr c.attr 8)) ∧
    (∀ (e : mem.Empty) (adr val : Nat),
      e.Wr8 adr val = e.Wr8 adr 0 ∧ e.Wr16 adr val = e.Wr16 adr 0 ∧
      e.Wr32 adr val = e.Wr32 adr 0 ∧ e.Wr64 adr val = e.Wr64 adr 0) := by
  refine ⟨?_, ?_, ?_, ?_, fun e adr val => ⟨rfl, rfl, rfl, rfl⟩⟩
  · intro c adr val h
    obtain ⟨m2, hput, hget⟩ := wr_rd_roundtrip c adr val 1 h
    refine ⟨({ c with memA := m2 }, wrException adr c.attr 1), ?_, rfl, ?_⟩
    · simp only [Chunk.Wr8, hput, Option.map_some']
    · simp only [Chunk.Rd8, hget, Option.map_some']
  · intro c adr val h
    obtain ⟨m2, hput, hget⟩ := wr_rd_roundtrip c adr val 2 h
    refine ⟨({ c with memA := m2 }, wrException adr c.attr 2), ?_, rfl, ?_⟩
    · simp only [Chunk.Wr16, hput, Option.map_some']
    · simp only [Chunk.Rd16, hget, Option.map_some']
  · intro c adr val h
    obtain ⟨m2, hput, hget⟩ := wr_rd_roundtrip c adr val 4 h
    refine ⟨({ c with memA := m2 }, wrException adr c.attr 4), ?_, rfl, ?_⟩
    · simp only [Chunk.Wr32, hput, Option.map_some']
    · simp only [Chunk.Rd32, hget, Option.map_some']
  · intro c adr val h
    obtain ⟨m2, hput, hget⟩ := wr_rd_roundtrip c adr val 8 h
    refine ⟨({ c with memA := m2 }, wrException adr c.attr 8), ?_, rfl, ?_⟩
    · simp only [Chunk.Wr64, hput, Option.map_some']
    · simp only [Chunk.Rd64, hget, Option.map_some']

/-- Witness for C8 at a concrete input: a 32-bit write at address 2 of a
read-only 8-byte chunk stores through and a 32-bit read returns the
value. -/
theorem C8_write_through_witness :
    ∃ p, (NewChunk 0 8 AttrR).Wr32 2 305419896 = some p ∧
      p.1.attr = (NewChunk 0 8 AttrR).attr ∧
      p.1.Rd32 2 = some (305419896 % 2 ^ 32, rdException 2 (NewChunk 0 8 AttrR).attr 4) :=
  C8_write_through.2.2.1 (NewChunk 0 8 AttrR) 2 305419896 (by decide)

/-- C3: for every ISA table and 32-bit word, the disassembler's decode
output (instruction text and comment) is produced by the decode function
of the first entry in table order with `ins & mask == val`, and entries
after that first match are never consulted: replacing them does not change
the result. -/
theorem C3_first_match (memf : Nat → Nat) (l1 l2 l2' : List insInfo) (ii : insInfo)
    (adr : Nat) (st : SymbolTable)
    (hno : ∀ e ∈ l1, ¬(memf adr % 2 ^ 32 &&& e.mask = e.val))
    (hm : memf adr % 2 ^ 32 &&& ii.mask = ii.val) :
    ((RV.mk memf (ISA.mk (l1 ++ ii :: l2))).Disassemble adr st).Instruction =
      (ii.da ii.mneumonic adr (memf adr % 2 ^ 32)).1 ∧
    ((RV.mk memf (ISA.mk (l1 ++ ii :: l2))).Disassemble adr st).Comment =
      (ii.da ii.mneumonic adr (memf adr % 2 ^ 32)).2 ∧
    (RV.mk memf (ISA.mk (l1 ++ ii :: l2))).Disassemble adr st =
      (RV.mk memf (ISA.mk (l1 ++ ii :: l2'))).Disassemble adr st := by
  have h1 := scan_first (memf adr % 2 ^ 32) ii l2 l1 hno hm
  have h2 := scan_first (memf adr % 2 ^ 32) ii l2' l1 hno hm
  simp only [RV.Disassemble, h1, h2]
  exact ⟨by trivial, by trivial, by trivial⟩

/-- Witness for C3 at a concrete input: the word `19` is decoded by the
matching second entry, not the non-matching first entry, and the
always-matching third entry is never consulted. -/
theorem C3_first_match_witness :
    ((RV.mk (fun _ => 19) (ISA.mk
      ([⟨127, 63, "f", fun _ _ _ => ("no", "")⟩] ++
        ⟨127, 19, "addi", fun m _ _ => (m, "c")⟩ :: [dIns]))).Disassemble
      0 []).Instruction = "addi" := by
  have h := C3_first_match (fun _ => 19) [⟨127, 63, "f", fun _ _ _ => ("no", "")⟩]
    [dIns] [] ⟨127, 19, "addi", fun m _ _ => (m, "c")⟩ 0 []
    (by
      intro e he
      rw [List.mem_singleton] at he
      subst he
      decide)
    (by decide)
  rw [h.1]

/-- C5 counterexample: with no matching entry (empty table) the
disassembler's instruction text is the empty string, not the documented
unknown marker, and the reported length is 4, not the 2-byte minimum
instruction width. -/
theorem C5_unknown_counterexample :
    ((RV.mk (fun _ => 0) (ISA.mk [])).Disassemble 0 []).Instruction ≠ "?" ∧
    ((RV.mk (fun _ => 0) (ISA.mk [])).Disassemble 0 []).N ≠ 2 := by
  refine ⟨by decide, by decide⟩

/-- C5 (amended): with no matching entry the instruction text and comment
keep the zero value `""`, and the reported length is the constant 4
(sizeof of the fetched 32-bit word) for unmatched and matched words
alike — it is not entry-specific. -/
theorem C5_unknown_amended (memf : Nat → Nat) (isa : ISA) (adr : Nat)
    (st : SymbolTable) :
    (scan isa.instruction (memf adr % 2 ^ 32) = none →
      ((RV.mk memf isa).Disassemble adr st).Instruction = "" ∧
      ((RV.mk memf isa).Disassemble adr st).Comment = "" ∧
      ((RV.mk memf isa).Disassemble adr st).N = 4) ∧
    (∀ ii, scan isa.instruction (memf adr % 2 ^ 32) = some ii →
      ((RV.mk memf isa).Disassemble adr st).N = 4) := by
  constructor
  · intro hnone
    simp only [RV.Disassemble, hnone]
    exact ⟨by trivial, by trivial, by trivial⟩
  · intro ii hsome
    simp only [RV.Disassemble, hsome]

/-- Witness for C5 (amended) at a concrete input: the empty table on word
0. -/
theorem C5_unknown_amended_witness :
    ((RV.mk (fun _ => 0) (ISA.mk [])).Disassemble 0 []).Instruction = "" ∧
    ((RV.mk (fun _ => 0) (ISA.mk [])).Disassemble 0 []).Comment = "" ∧
    ((RV.mk (fun _ => 0) (ISA.mk [])).Disassemble 0 []).N = 4 :=
  (C5_unknown_amended (fun _ => 0) (ISA.mk []) 0 []).1 rfl

/-- C6: `ISA.Add` rejects a merge exactly when some newly added entry
conflicts (equal match values on the common mask) with an entry already
present when it is added; on rejection the ISA is returned unchanged
(atomic add), and on success the entry list is the old list with the new
entries appended in order. -/
theorem C6_atomic_add (isa : ISA) (ext : List insInfo) :
    ((isa.Add ext).2 = false ↔ specAddConflict isa.instruction ext) ∧
    ((isa.Add ext).2 = false → (isa.Add ext).1 = isa) ∧
    ((isa.Add ext).2 = true → (isa.Add ext).1.instruction = isa.instruction ++ ext) := by
  unfold ISA.Add specAddConflict
  cases h : addSeq isa.instruction ext with
  | none =>
    simp only []
    refine ⟨?_, fun _ => by trivial, fun hh => by simp at hh⟩
    constructor
    · intro _
      exact (addSeq_none_iff ext isa.instruction).mp h
    · intro _
      trivial
  | some t =>
    simp only []
    have ht := addSeq_some_eq ext isa.instruction t h
    refine ⟨?_, fun hh => by simp at hh, fun _ => by rw [ht]⟩
    constructor
    · intro hh
      simp at hh
    · intro hspec
      exact absurd h (by rw [(addSeq_none_iff ext isa.instruction).mpr hspec]; simp)

/-- Witness for C6 at a concrete input: adding two all-wildcard entries
(mask 0) to an empty ISA is rejected — the second conflicts with the
first — and the ISA is returned unchanged. -/
theorem C6_atomic_add_witness :
    ((ISA.mk []).Add [dIns, dIns]).1 = ISA.mk [] ∧
    specAddConflict ([] : List insInfo) [dIns, dIns] := by
  have h := C6_atomic_add (ISA.mk []) [dIns, dIns]
  have hf : ((ISA.mk []).Add [dIns, dIns]).2 = false := by decide
  exact ⟨h.2.1 hf, h.1.mp hf⟩

/-- Witness for C2 (amended) at a concrete input: an Empty region's 8-bit
read returns 255 with a non-zero mask. -/
theorem C2_sentinel_amended_witness :
    ((NewEmpty 0 4 AttrRW).Rd8 0).1 = 2 ^ 8 - 1 ∧
    ((NewEmpty 0 4 AttrRW).Rd8 0).2 ≠ 0 :=
  ⟨(C2_sentinel_amended.1 (NewEmpty 0 4 AttrRW) 0).1,
    (C2_sentinel_amended.1 (NewEmpty 0 4 AttrRW) 0).2.2.2.2.2.1⟩

/-- Witness for C4 (amended) at a concrete input. -/
theorem C4_totality_amended_witness :
    ((NewChunk 0 4 AttrRW).Rd8 0).isSome = true ↔
      goSub 0 (NewChunk 0 4 AttrRW).start + 1 ≤ (NewChunk 0 4 AttrRW).memA.length :=
  (C4_totality_amended (NewChunk 0 4 AttrRW) 0 0).1

/-- Witness for C7 at a concrete input: fetching at odd address 1 from an
RX segment. -/
theorem C7_fetch_align_exec_witness :
    (rdInsException 1 AttrRX &&& ExAlign ≠ 0 ↔ (1 : Nat) % 2 ≠ 0) ∧
    (rdInsException 1 AttrRX &&& ExExec ≠ 0 ↔ AttrRX &&& AttrX = 0) :=
  C7_fetch_align_exec 1 AttrRX
